import Mathlib

/-
Verification of the ebiten-ecs registry core against its specification.

The Go sources embedded here:
  * `component/component.go` — the component wrapper and `QueryComponents`.
  * the `ecs` package — the `ECS` registry with `RegisterEntity`,
    `UnregisterEntity`, `RegisterUpdater`, `RegisterDrawer`,
    `QueryEntityComponents`, `FilterEntities`, `Update` and `Draw`.
  * `entity`/`system` packages — the two monotonic `AssignID` counters.

Modelling conventions:
  * A Go `interface{}` payload, as inspected by `reflect`, is a `Payload`:
    either a pointer (carrying the pointee's type tag and a reference
    identity) or a non-pointer value.
  * Go panics are modelled as explicit `GoPanic` results.
  * Go maps are modelled as total functions; a `map[K][]V` lookup of an
    absent key yields the empty list, and key deletion in
    `componentsRegistry` is modelled with an `Option` so that an absent
    key is distinguishable from an empty list.
  * In-place mutation of component payloads by updaters is modelled with
    an explicit heap (reference identity to value) threaded through the
    update dispatch.
  * Go `int` is modelled by `Int` with two's-complement 64-bit wraparound
    applied where the source increments a counter.
-/

namespace EbitenEcs

/-- Go `entity.ID`, an `int`. -/
abbrev EntityID := Int

/-- Go `system.ID`, an `int`. -/
abbrev SystemID := Int

/-- Go `entity.Entity`: an interface exposing only `ID()`. -/
structure Entity where
  id : EntityID
deriving DecidableEq, Repr

/-- A Go `interface{}` payload as seen through `reflect.ValueOf`:
either a pointer (pointee type tag plus a reference identity naming the
pointed-to cell) or a non-pointer value of some type. -/
inductive Payload where
  | ptr (ty : Nat) (ref : Nat)
  | nonPtr (ty : Nat)
deriving DecidableEq, Repr

/-- `reflect.ValueOf(x).Kind() == reflect.Ptr`. -/
def Payload.isPtr : Payload → Bool
  | .ptr _ _ => true
  | .nonPtr _ => false

/-- Go `component.Component`: wraps one payload, exposed by `Data()`. -/
structure Component where
  data : Payload
deriving DecidableEq, Repr

/-- The distinct panic sites of the source. -/
inductive GoPanic where
  /-- `QueryComponents`: "received entity component ... must be a pointer". -/
  | slotNotPtr
  /-- `QueryComponents`: "received entity component ... must be a pointer to pointer". -/
  | slotNotPtrToPtr
  /-- `QueryComponents`: "registered entity component ... must be a pointer". -/
  | registeredNotPtr
  /-- `RegisterEntity`: "the entity component ... you are trying to register MUST be a pointer". -/
  | registerEntityNotPtr
deriving DecidableEq, Repr

/-- One variadic `interface{}` argument handed to `QueryComponents`:
a valid slot is a pointer to a pointer variable (its target type tag and
its current binding); the two invalid shapes are a non-pointer argument
and a pointer whose element is not itself a pointer. -/
inductive SlotArg where
  | valid (targetTy : Nat) (binding : Option Nat)
  | nonPtrArg
  | ptrToNonPtr
deriving DecidableEq, Repr

/-- Whether a slot argument is a writable typed binding (pointer to pointer). -/
def SlotArg.isValid : SlotArg → Bool
  | .valid _ _ => true
  | _ => false

/-- The inner loop of `QueryComponents` over the registered components:
panics when a registered payload is not a pointer, otherwise returns the
first payload whose pointer type equals the slot's target type. -/
def scanAvailable (ty : Nat) : List Component → Except GoPanic (Option Nat)
  | [] => .ok none
  | c :: rest =>
    match c.data with
    | .nonPtr _ => .error .registeredNotPtr
    | .ptr t r => if t = ty then .ok (some r) else scanAvailable ty rest

/-- Processing of one slot by `QueryComponents`: shape checks on the slot
argument, then the scan; on a match the slot's binding is overwritten,
otherwise it is left as it was. -/
def querySlot (avail : List Component) : SlotArg → Except GoPanic SlotArg
  | .nonPtrArg => .error .slotNotPtr
  | .ptrToNonPtr => .error .slotNotPtrToPtr
  | .valid ty b =>
    match scanAvailable ty avail with
    | .error p => .error p
    | .ok none => .ok (.valid ty b)
    | .ok (some r) => .ok (.valid ty (some r))

/-- Go `component.QueryComponents`: processes the slot arguments left to
right; a panic aborts the whole call. -/
def QueryComponents (avail : List Component) : List SlotArg → Except GoPanic (List SlotArg)
  | [] => .ok []
  | s :: rest =>
    match querySlot avail s with
    | .error p => .error p
    | .ok s2 => (QueryComponents avail rest).map (fun l => s2 :: l)

/-- Specification-side lookup: the reference held by the first component
in the list whose payload's pointer type equals `ty`. -/
def firstMatch (ty : Nat) : List Component → Option Nat
  | [] => none
  | c :: rest =>
    match c.data with
    | .ptr t r => if t = ty then some r else firstMatch ty rest
    | .nonPtr _ => firstMatch ty rest

/-- Specification-side per-slot outcome: a valid slot is bound to the
first matching payload and left unchanged when no component matches;
invalid slots are untouched by this description. -/
def bindSlot (avail : List Component) : SlotArg → SlotArg
  | .valid ty b =>
    match firstMatch ty avail with
    | some r => .valid ty (some r)
    | none => .valid ty b
  | s => s

/-- Heap of pointed-to component cells: reference identity to value. -/
abbrev Heap := Nat → Int

/-- Identity of a Go `error` value returned by an updater. -/
abbrev Err := Nat

/-- Go `system.Updater`: a system identifier plus the `Update` behavior.
`update` receives the entity id, that entity's component list and the
full component registry, and returns the mutated heap together with an
optional error. -/
structure Updater where
  id : SystemID
  update : EntityID → List Component → (EntityID → Option (List Component)) → Heap → Heap × Option Err

/-- Go `system.Drawer`, identified by its system id; the drawing itself
only touches the opaque screen, so the model records invocations. -/
structure Drawer where
  id : SystemID
deriving DecidableEq, Repr

/-- The Go `ECS` struct. `drawerKeys` lists the keys present in the
`drawers` map (Go map key set; `Draw` sorts them before use), and
`drawersMap`/`entitiesRegistry`/`componentsRegistry` are the maps. -/
structure ECS where
  updaters : List Updater
  drawerKeys : List Int
  drawersMap : Int → List Drawer
  entitiesRegistry : SystemID → List Entity
  componentsRegistry : EntityID → Option (List Component)

/-- Go `ecs.New()`: empty registries. -/
def ecsNew : ECS where
  updaters := []
  drawerKeys := []
  drawersMap := fun _ => []
  entitiesRegistry := fun _ => []
  componentsRegistry := fun _ => none

/-- Go `ECS.RegisterEntity`: per component, check the payload is a
pointer (panicking otherwise, with the components appended so far kept)
and append it to the entity's component list. -/
def RegisterEntity (ecs : ECS) (e : Entity) : List Component → ECS × Option GoPanic
  | [] => (ecs, none)
  | c :: rest =>
    if c.data.isPtr then
      RegisterEntity
        { ecs with
          componentsRegistry := fun eid =>
            if eid = e.id then some (((ecs.componentsRegistry e.id).getD []) ++ [c])
            else ecs.componentsRegistry eid } e rest
    else (ecs, some .registerEntityNotPtr)

/-- Go `deleteFromSlice`, as a function of the slice value it receives:
swap the victim with the last element and drop the last element. -/
def swapList (l : List Entity) (i j : Nat) : List Entity :=
  match l.get? i, l.get? j with
  | some a, some b => (l.set i b).set j a
  | _, _ => l

/-- Functional reading of Go `deleteFromSlice` in isolation. -/
def deleteFromSlice (l : List Entity) (i : Nat) : List Entity :=
  if l.length = 0 ∨ l.length ≤ i then l
  else (swapList l i (l.length - 1)).take (l.length - 1)

/-- One iteration of the inner loop of `UnregisterEntity`.  The loop
ranges over the slice header captured at loop entry (length `n`), while
`deleteFromSlice` swaps elements of the shared backing array in place and
re-truncates the map entry to `n - 1` each time (the argument passed to
`deleteFromSlice` is the stale full-length header, never the already
truncated map entry).  The state is the backing array (its length stays
`n`) plus whether any deletion happened. -/
def unregisterStep (eid : EntityID) (n : Nat) (st : List Entity × Bool) (i : Nat) :
    List Entity × Bool :=
  match st.1.get? i with
  | some e => if e.id = eid then (swapList st.1 i (n - 1), true) else st
  | none => st

/-- The inner loop of `UnregisterEntity` for one system's association
list: the resulting map entry is the final backing array truncated to
`n - 1` when at least one match fired, and the untouched list otherwise. -/
def unregisterScan (eid : EntityID) (entities : List Entity) : List Entity :=
  let n := entities.length
  let r := (List.range n).foldl (unregisterStep eid n) (entities, false)
  if r.2 then r.1.take (n - 1) else entities

/-- Go `ECS.UnregisterEntity`: run the scan on every system's association
list and delete the entity's key from the component registry. -/
def UnregisterEntity (ecs : ECS) (eid : EntityID) : ECS :=
  { ecs with
    entitiesRegistry := fun sid => unregisterScan eid (ecs.entitiesRegistry sid)
    componentsRegistry := fun e => if e = eid then none else ecs.componentsRegistry e }

/-- Go `ECS.RegisterUpdater`: append the updater to the update list and
extend its association list with the supplied entities. -/
def RegisterUpdater (ecs : ECS) (u : Updater) (es : List Entity) : ECS :=
  { ecs with
    updaters := ecs.updaters ++ [u]
    entitiesRegistry := fun sid =>
      if sid = u.id then ecs.entitiesRegistry sid ++ es else ecs.entitiesRegistry sid }

/-- Go `ECS.RegisterDrawer`: append the drawer to the bucket at `zIndex`
(recording the key if it is new) and extend its association list. -/
def RegisterDrawer (ecs : ECS) (d : Drawer) (zIndex : Int) (es : List Entity) : ECS :=
  { ecs with
    drawerKeys := if zIndex ∈ ecs.drawerKeys then ecs.drawerKeys else ecs.drawerKeys ++ [zIndex]
    drawersMap := fun z =>
      if z = zIndex then ecs.drawersMap z ++ [d] else ecs.drawersMap z
    entitiesRegistry := fun sid =>
      if sid = d.id then ecs.entitiesRegistry sid ++ es else ecs.entitiesRegistry sid }

/-- Go `ECS.FilterEntities`: the association list of the system's id
(the source takes the `system.System` and uses only `s.ID()`). -/
def FilterEntities (ecs : ECS) (sid : SystemID) : List Entity :=
  ecs.entitiesRegistry sid

/-- Go `ECS.QueryEntityComponents`: look up the entity's component list
and run the query engine on it. -/
def QueryEntityComponents (ecs : ECS) (e : Entity) (slots : List SlotArg) :
    Except GoPanic (List SlotArg) :=
  QueryComponents ((ecs.componentsRegistry e.id).getD []) slots

/-- Trace of update invocations actually performed: system id and entity id. -/
abbrev Trace := List (SystemID × EntityID)

/-- Inner loop of Go `ECS.Update` for one updater: invoke it on each
associated entity in order, stopping at the first error. -/
def updateEntitiesGo (u : Updater) (cr : EntityID → Option (List Component)) :
    List Entity → Heap → Trace × Heap × Option Err
  | [], h => ([], h, none)
  | e :: rest, h =>
    match u.update e.id ((cr e.id).getD []) cr h with
    | (h2, some err) => ([(u.id, e.id)], h2, some err)
    | (h2, none) =>
      match updateEntitiesGo u cr rest h2 with
      | (tr, h3, r) => ((u.id, e.id) :: tr, h3, r)

/-- Outer loop of Go `ECS.Update` over the registered updaters in
registration order, halting when an inner loop reports an error. -/
def updateUpdatersGo (ecs : ECS) : List Updater → Heap → Trace × Heap × Option Err
  | [], h => ([], h, none)
  | u :: rest, h =>
    match updateEntitiesGo u ecs.componentsRegistry (FilterEntities ecs u.id) h with
    | (tr, h2, some err) => (tr, h2, some err)
    | (tr, h2, none) =>
      match updateUpdatersGo ecs rest h2 with
      | (tr2, h3, r) => (tr ++ tr2, h3, r)

/-- Go `ECS.Update`, instrumented with the trace of invocations. -/
def Update (ecs : ECS) (h : Heap) : Trace × Heap × Option Err :=
  updateUpdatersGo ecs ecs.updaters h

/-- Specification-side dispatch: the flat list of (updater, entity)
invocations — every updater in registration order, over its associated
entities in association order. -/
def updateInvocations (ecs : ECS) : List (Updater × Entity) :=
  ecs.updaters.flatMap (fun u => (FilterEntities ecs u.id).map (fun e => (u, e)))

/-- Specification-side fail-fast run over a flat invocation list: each
invocation in order; the first error is returned verbatim and nothing
after it runs, so the heap reflects only the invocations before and
including the failing one. -/
def updateSpecRun (cr : EntityID → Option (List Component)) :
    List (Updater × Entity) → Heap → Trace × Heap × Option Err
  | [], h => ([], h, none)
  | (u, e) :: rest, h =>
    match u.update e.id ((cr e.id).getD []) cr h with
    | (h2, some err) => ([(u.id, e.id)], h2, some err)
    | (h2, none) =>
      match updateSpecRun cr rest h2 with
      | (tr, h3, r) => ((u.id, e.id) :: tr, h3, r)

/-- Sequencing of two fail-fast runs: used to state that a run over an
appended list is the run of the first part followed, on success, by the
run of the second part. -/
def specSeq (a : Trace × Heap × Option Err) (f : Heap → Trace × Heap × Option Err) :
    Trace × Heap × Option Err :=
  match a with
  | (tr, h2, some err) => (tr, h2, some err)
  | (tr, h2, none) =>
    match f h2 with
    | (tr2, h3, r) => (tr ++ tr2, h3, r)

/-- One bucket of Go `ECS.Draw`: for each drawer registered at `z` in
registration order, for each associated entity in association order,
the invocation record (drawer id, entity id, that entity's own
component list as passed to `Draw`). -/
def drawBucket (ecs : ECS) (z : Int) : List (SystemID × EntityID × List Component) :=
  (ecs.drawersMap z).flatMap (fun d =>
    (FilterEntities ecs d.id).map (fun e =>
      (d.id, e.id, (ecs.componentsRegistry e.id).getD [])))

/-- Go `ECS.Draw`: collect the z-index keys, sort them ascending
(`sort.Ints`), and emit every bucket's invocations in that order. -/
def Draw (ecs : ECS) : List (SystemID × EntityID × List Component) :=
  (List.insertionSort (fun a b => a ≤ b) ecs.drawerKeys).flatMap (drawBucket ecs)

/-- A registration call, for reasoning about call sequences. -/
inductive RegOp where
  | regEntity (e : Entity) (cs : List Component)
  | regUpdater (u : Updater) (es : List Entity)
  | regDrawer (d : Drawer) (z : Int) (es : List Entity)

/-- Apply one registration call to the registry (a panicking
`RegisterEntity` leaves the partially extended state behind). -/
def applyOp (ecs : ECS) : RegOp → ECS
  | .regEntity e cs => (RegisterEntity ecs e cs).1
  | .regUpdater u es => RegisterUpdater ecs u es
  | .regDrawer d z es => RegisterDrawer ecs d z es

/-- Apply a sequence of registration calls in order. -/
def applyOps (ecs : ECS) : List RegOp → ECS
  | [] => ecs
  | op :: rest => applyOps (applyOp ecs op) rest

/-- The entities one registration call associates with system `sid`. -/
def opEntities (sid : SystemID) : RegOp → List Entity
  | .regUpdater u es => if sid = u.id then es else []
  | .regDrawer d _ es => if sid = d.id then es else []
  | .regEntity _ _ => []

/-- Specification-side accumulation: the concatenation, in call order, of
the entity lists passed to updater/drawer registrations for system `sid`. -/
def sysEntities (sid : SystemID) : List RegOp → List Entity
  | [] => []
  | op :: rest => opEntities sid op ++ sysEntities sid rest

/-- Two's-complement 64-bit wraparound of a Go `int` increment. -/
def wrap64 (n : Int) : Int := (n + 2 ^ 63) % 2 ^ 64 - 2 ^ 63

/-- The two package-level counters behind `entity.AssignID` and
`system.AssignID` (independent namespaces). -/
structure IdCounters where
  entityId : Int
  systemId : Int

/-- Both counters start at the zero value of Go `int`. -/
def initialCounters : IdCounters := ⟨0, 0⟩

/-- Go `entity.AssignID`: `id++; return id`. -/
def entityAssignID (s : IdCounters) : Int × IdCounters :=
  let v := wrap64 (s.entityId + 1)
  (v, { s with entityId := v })

/-- Go `system.AssignID`: `id++; return id`. -/
def systemAssignID (s : IdCounters) : Int × IdCounters :=
  let v := wrap64 (s.systemId + 1)
  (v, { s with systemId := v })

/-- Which allocator a call goes to. -/
inductive NS where
  | ent
  | sys
deriving DecidableEq, Repr

/-- Run a sequence of `AssignID` calls, recording each returned value
with its namespace. -/
def runAssigns : List NS → IdCounters → List (NS × Int) × IdCounters
  | [], s => ([], s)
  | NS.ent :: rest, s =>
    match entityAssignID s with
    | (v, s2) =>
      match runAssigns rest s2 with
      | (tr, s3) => ((NS.ent, v) :: tr, s3)
  | NS.sys :: rest, s =>
    match systemAssignID s with
    | (v, s2) =>
      match runAssigns rest s2 with
      | (tr, s3) => ((NS.sys, v) :: tr, s3)

/-- Number of entity-namespace calls in a call sequence. -/
def entCount : List NS → Nat
  | [] => 0
  | NS.ent :: rest => entCount rest + 1
  | NS.sys :: rest => entCount rest

/-- Number of system-namespace calls in a call sequence. -/
def sysCount : List NS → Nat
  | [] => 0
  | NS.ent :: rest => sysCount rest
  | NS.sys :: rest => sysCount rest + 1

/-- The values issued in the entity namespace, in issue order. -/
def entValues (tr : List (NS × Int)) : List Int :=
  tr.filterMap (fun p => match p.1 with | NS.ent => some p.2 | NS.sys => none)

/-- The values issued in the system namespace, in issue order. -/
def sysValues (tr : List (NS × Int)) : List Int :=
  tr.filterMap (fun p => match p.1 with | NS.ent => none | NS.sys => some p.2)

/-- An updater that touches nothing and never errs, for concrete states. -/
def updNoop : Updater := { id := 1, update := fun _ _ _ h => (h, none) }

/-- A concrete entity. -/
def entFive : Entity := ⟨5⟩

/-- A pointer-payload component. -/
def compPtr : Component := ⟨Payload.ptr 0 0⟩

/-- A non-pointer-payload component. -/
def compBad : Component := ⟨Payload.nonPtr 0⟩

/-- A registry in which entity 5 is associated with system 1 twice (the
same updater registered twice against it — associations accumulate) and
carries one component. -/
def ecsDup : ECS :=
  (RegisterEntity (RegisterUpdater (RegisterUpdater ecsNew updNoop [entFive]) updNoop [entFive])
    entFive [compPtr]).1

/-- A registry with two z-index buckets created in descending order. -/
def ecsZ : ECS :=
  RegisterDrawer (RegisterDrawer ecsNew ⟨3⟩ 10 [entFive]) ⟨4⟩ 5 [entFive]

/-! ## Theorems -/

/-- C1: the claim fails on the code.  In the registry `ecsDup`, entity 5
is associated with system 1 twice; after `UnregisterEntity 5` the entity
is still returned by `FilterEntities` (the stale slice header passed to
`deleteFromSlice` makes every deletion re-truncate to length `n - 1`, so
only one occurrence is removed), even though the component mapping is
deleted entirely as claimed. -/
theorem c1_unregister_misses_duplicate_association :
    FilterEntities (UnregisterEntity ecsDup 5) 1 = [entFive] ∧
    entFive ∈ FilterEntities (UnregisterEntity ecsDup 5) 1 ∧
    (UnregisterEntity ecsDup 5).componentsRegistry 5 = none := by
  refine ⟨by decide, by decide, by decide⟩

/-- C2: the claim fails on the code.  On `ecsDup` the first
`UnregisterEntity 5` leaves one association of entity 5 with system 1
behind, and the second call removes it, so the second call observably
changes the registry state — it is not a no-op. -/
theorem c2_unregister_not_idempotent :
    FilterEntities (UnregisterEntity (UnregisterEntity ecsDup 5) 5) 1 ≠
      FilterEntities (UnregisterEntity ecsDup 5) 1 := by
  decide

/-- `RegisterEntity` never touches the system association registry,
whether or not it panics partway. -/
theorem RegisterEntity_entitiesRegistry (ecs : ECS) (e : Entity) (cs : List Component) :
    (RegisterEntity ecs e cs).1.entitiesRegistry = ecs.entitiesRegistry := by
  induction cs generalizing ecs with
  | nil => rfl
  | cons c rest ih =>
    cases hc : c.data.isPtr with
    | true => simp only [RegisterEntity, hc, if_true]; rw [ih]
    | false => simp [RegisterEntity, hc]

/-- Effect of one registration call on one system's association list. -/
theorem applyOp_entitiesRegistry (ecs : ECS) (op : RegOp) (sid : SystemID) :
    (applyOp ecs op).entitiesRegistry sid = ecs.entitiesRegistry sid ++ opEntities sid op := by
  cases op with
  | regEntity e cs =>
    simp [applyOp, opEntities, RegisterEntity_entitiesRegistry]
  | regUpdater u es =>
    by_cases h : sid = u.id <;> simp [applyOp, RegisterUpdater, opEntities, h]
  | regDrawer d z es =>
    by_cases h : sid = d.id <;> simp [applyOp, RegisterDrawer, opEntities, h]

/-- Effect of a sequence of registration calls on one system's
association list: pure accumulation in call order. -/
theorem applyOps_entitiesRegistry (ops : List RegOp) (ecs : ECS) (sid : SystemID) :
    (applyOps ecs ops).entitiesRegistry sid = ecs.entitiesRegistry sid ++ sysEntities sid ops := by
  induction ops generalizing ecs with
  | nil => simp [applyOps, sysEntities]
  | cons op rest ih =>
    simp [applyOps, sysEntities, ih, applyOp_entitiesRegistry, List.append_assoc]

/-- C6: for every sequence of registration calls starting from the fresh
registry, `FilterEntities` for system id `sid` returns exactly the
concatenation, in call order, of the entity lists passed to
`RegisterUpdater`/`RegisterDrawer` calls whose system has that id, with
no de-duplication — in particular the empty list when no such
registration occurred. -/
theorem c6_filterEntities_accumulates (ops : List RegOp) (sid : SystemID) :
    FilterEntities (applyOps ecsNew ops) sid = sysEntities sid ops := by
  have h := applyOps_entitiesRegistry ops ecsNew sid
  simpa [FilterEntities, ecsNew] using h

/-- When every available payload is a pointer, the inner scan never
panics and returns the first type match. -/
theorem scanAvailable_ok (ty : Nat) (avail : List Component)
    (hp : ∀ c ∈ avail, c.data.isPtr = true) :
    scanAvailable ty avail = .ok (firstMatch ty avail) := by
  induction avail with
  | nil => rfl
  | cons c rest ih =>
    have hc := hp c (by simp)
    cases hd : c.data with
    | ptr t r =>
      by_cases ht : t = ty <;>
        simp [scanAvailable, firstMatch, hd, ht, ih (fun x hx => hp x (by simp [hx]))]
    | nonPtr t => rw [hd] at hc; simp [Payload.isPtr] at hc

/-- Per-slot behavior of `QueryComponents` on a valid slot over
pointer-only components: the binding described by `bindSlot`. -/
theorem querySlot_valid (avail : List Component) (ty : Nat) (b : Option Nat)
    (hp : ∀ c ∈ avail, c.data.isPtr = true) :
    querySlot avail (.valid ty b) = .ok (bindSlot avail (.valid ty b)) := by
  simp only [querySlot, bindSlot, scanAvailable_ok ty avail hp]
  cases firstMatch ty avail <;> rfl

/-- C4: over pointer-payload components and valid slots,
`QueryComponents` processes the slots in order and succeeds, binding each
slot to the payload of the first component in list order whose type
matches (so of two same-typed components the first wins), and leaving a
slot with no matching component unchanged, with no fault. -/
theorem c4_query_binds_first_match (avail : List Component) (slots : List SlotArg)
    (hp : ∀ c ∈ avail, c.data.isPtr = true)
    (hs : ∀ s ∈ slots, s.isValid = true) :
    QueryComponents avail slots = .ok (slots.map (bindSlot avail)) := by
  induction slots with
  | nil => rfl
  | cons s rest ih =>
    have hv := hs s (by simp)
    cases s with
    | valid ty b =>
      rw [QueryComponents, querySlot_valid avail ty b hp,
        ih (fun x hx => hs x (by simp [hx]))]
      rfl
    | nonPtrArg => simp [SlotArg.isValid] at hv
    | ptrToNonPtr => simp [SlotArg.isValid] at hv

/-- C4 witness: two components of type 7 — the first (reference 1) wins;
the slot for type 9 has no match and keeps its prior binding. -/
theorem c4_witness :
    QueryComponents [⟨Payload.ptr 7 1⟩, ⟨Payload.ptr 7 2⟩]
        [SlotArg.valid 7 none, SlotArg.valid 9 (some 5)] =
      .ok [SlotArg.valid 7 (some 1), SlotArg.valid 9 (some 5)] :=
  c4_query_binds_first_match [⟨Payload.ptr 7 1⟩, ⟨Payload.ptr 7 2⟩]
    [SlotArg.valid 7 none, SlotArg.valid 9 (some 5)] (by decide) (by decide)

/-- C8: if some slot argument is not a valid writable typed binding, then
— whatever its position among otherwise valid slots over pointer-payload
components — `QueryComponents` fails fast with one of the two
invalid-usage panics instead of skipping the slot. -/
theorem c8_invalid_slot_faults (avail : List Component) (pre post : List SlotArg)
    (bad : SlotArg)
    (hp : ∀ c ∈ avail, c.data.isPtr = true)
    (hpre : ∀ s ∈ pre, s.isValid = true)
    (hbad : bad.isValid = false) :
    ∃ p, QueryComponents avail (pre ++ bad :: post) = .error p ∧
      (p = GoPanic.slotNotPtr ∨ p = GoPanic.slotNotPtrToPtr) := by
  induction pre with
  | nil =>
    cases bad with
    | valid ty b => simp [SlotArg.isValid] at hbad
    | nonPtrArg => exact ⟨.slotNotPtr, rfl, Or.inl rfl⟩
    | ptrToNonPtr => exact ⟨.slotNotPtrToPtr, rfl, Or.inr rfl⟩
  | cons s rest ih =>
    have hv := hpre s (by simp)
    obtain ⟨p, hp2, hv2⟩ := ih (fun x hx => hpre x (by simp [hx]))
    cases s with
    | valid ty b =>
      refine ⟨p, ?_, hv2⟩
      rw [List.cons_append, QueryComponents, querySlot_valid avail ty b hp, hp2]
      rfl
    | nonPtrArg => simp [SlotArg.isValid] at hv
    | ptrToNonPtr => simp [SlotArg.isValid] at hv

/-- C8 witness: an invalid slot in second position, after a valid slot,
aborts the whole query with the pointer-shape panic. -/
theorem c8_witness :
    ∃ p, QueryComponents [⟨Payload.ptr 7 1⟩]
        ([SlotArg.valid 7 none] ++ SlotArg.nonPtrArg :: []) = .error p ∧
      (p = GoPanic.slotNotPtr ∨ p = GoPanic.slotNotPtrToPtr) :=
  c8_invalid_slot_faults [⟨Payload.ptr 7 1⟩] [SlotArg.valid 7 none] []
    SlotArg.nonPtrArg (by decide) (by decide) (by decide)

/-- `RegisterEntity` over pointer-only components: no panic, and the
entity's component list is extended by exactly the given components in
the given order. -/
theorem RegisterEntity_all_ptr (ecs : ECS) (e : Entity) (cs : List Component)
    (h : ∀ c ∈ cs, c.data.isPtr = true) :
    (RegisterEntity ecs e cs).2 = none ∧
    ((RegisterEntity ecs e cs).1.componentsRegistry e.id).getD [] =
      ((ecs.componentsRegistry e.id).getD []) ++ cs := by
  induction cs generalizing ecs with
  | nil => simp [RegisterEntity]
  | cons c rest ih =>
    have hc := h c (by simp)
    obtain ⟨ih1, ih2⟩ := ih
      { ecs with componentsRegistry := fun eid =>
          if eid = e.id then some (((ecs.componentsRegistry e.id).getD []) ++ [c])
          else ecs.componentsRegistry eid }
      (fun x hx => h x (by simp [hx]))
    refine ⟨?_, ?_⟩
    · simpa [RegisterEntity, hc] using ih1
    · rw [RegisterEntity]
      simp only [hc, if_true]
      rw [ih2]
      simp

/-- `RegisterEntity` when the first non-pointer payload sits after a
pointer-only front: the per-component loop panics there, having already
appended exactly the front, which stays registered. -/
theorem RegisterEntity_panic_split (ecs : ECS) (e : Entity) (pre : List Component)
    (bad : Component) (post : List Component)
    (hpre : ∀ c ∈ pre, c.data.isPtr = true) (hbad : bad.data.isPtr = false) :
    (RegisterEntity ecs e (pre ++ bad :: post)).2 = some GoPanic.registerEntityNotPtr ∧
    ((RegisterEntity ecs e (pre ++ bad :: post)).1.componentsRegistry e.id).getD [] =
      ((ecs.componentsRegistry e.id).getD []) ++ pre := by
  induction pre generalizing ecs with
  | nil => simp [RegisterEntity, hbad]
  | cons c rest ih =>
    have hc := hpre c (by simp)
    obtain ⟨ih1, ih2⟩ := ih
      { ecs with componentsRegistry := fun eid =>
          if eid = e.id then some (((ecs.componentsRegistry e.id).getD []) ++ [c])
          else ecs.componentsRegistry eid }
      (fun x hx => hpre x (by simp [hx]))
    refine ⟨?_, ?_⟩
    · simpa [RegisterEntity, hc] using ih1
    · rw [List.cons_append, RegisterEntity]
      simp only [hc, if_true]
      rw [ih2]
      simp

/-- C7: `RegisterEntity` appends every component of the call, in the
given order, when all payloads are pointers; and as soon as some payload
is not a pointer it aborts with the descriptive registration panic, the
entity's component list ending at the components before the offender —
the offending component is never silently stored. -/
theorem c7_registerEntity_pointer_check (ecs : ECS) (e : Entity) (cs : List Component) :
    ((∀ c ∈ cs, c.data.isPtr = true) →
      (RegisterEntity ecs e cs).2 = none ∧
      ((RegisterEntity ecs e cs).1.componentsRegistry e.id).getD [] =
        ((ecs.componentsRegistry e.id).getD []) ++ cs) ∧
    (∀ pre bad post, cs = pre ++ bad :: post →
      (∀ c ∈ pre, c.data.isPtr = true) → bad.data.isPtr = false →
      (RegisterEntity ecs e cs).2 = some GoPanic.registerEntityNotPtr ∧
      (((RegisterEntity ecs e cs).1.componentsRegistry e.id).getD []).length =
        (((ecs.componentsRegistry e.id).getD []) ++ pre).length) := by
  refine ⟨fun h => RegisterEntity_all_ptr ecs e cs h, ?_⟩
  intro pre bad post hsplit hpre hbad
  subst hsplit
  obtain ⟨h1, h2⟩ := RegisterEntity_panic_split ecs e pre bad post hpre hbad
  exact ⟨h1, by rw [h2]⟩

/-- C7 witness: one pointer component registers cleanly; a pointer
component followed by a value component panics with nothing beyond the
pointer component stored. -/
theorem c7_witness :
    ((RegisterEntity ecsNew entFive [compPtr]).2 = none ∧
      ((RegisterEntity ecsNew entFive [compPtr]).1.componentsRegistry entFive.id).getD [] =
        ((ecsNew.componentsRegistry entFive.id).getD []) ++ [compPtr]) ∧
    ((RegisterEntity ecsNew entFive [compPtr, compBad]).2 =
        some GoPanic.registerEntityNotPtr ∧
      (((RegisterEntity ecsNew entFive [compPtr, compBad]).1.componentsRegistry
          entFive.id).getD []).length =
        (((ecsNew.componentsRegistry entFive.id).getD []) ++ [compPtr]).length) :=
  ⟨(c7_registerEntity_pointer_check ecsNew entFive [compPtr]).1 (by decide),
    (c7_registerEntity_pointer_check ecsNew entFive [compPtr, compBad]).2
      [compPtr] compBad [] rfl (by decide) (by decide)⟩

/-- C10: when `RegisterEntity` panics at a non-pointer payload, the
components before it in the call have already been appended to the
entity's component list and remain registered afterwards. -/
theorem c10_registerEntity_keeps_valid_front (ecs : ECS) (e : Entity)
    (pre : List Component) (bad : Component) (post : List Component)
    (hpre : ∀ c ∈ pre, c.data.isPtr = true) (hbad : bad.data.isPtr = false) :
    (RegisterEntity ecs e (pre ++ bad :: post)).2 = some GoPanic.registerEntityNotPtr ∧
    ((RegisterEntity ecs e (pre ++ bad :: post)).1.componentsRegistry e.id).getD [] =
      ((ecs.componentsRegistry e.id).getD []) ++ pre :=
  RegisterEntity_panic_split ecs e pre bad post hpre hbad

/-- C10 witness: registering (pointer, value, pointer) panics with
exactly the leading pointer component stored. -/
theorem c10_witness :
    (RegisterEntity ecsNew entFive ([compPtr] ++ compBad :: [compPtr])).2 =
        some GoPanic.registerEntityNotPtr ∧
    ((RegisterEntity ecsNew entFive
        ([compPtr] ++ compBad :: [compPtr])).1.componentsRegistry entFive.id).getD [] =
      ((ecsNew.componentsRegistry entFive.id).getD []) ++ [compPtr] :=
  c10_registerEntity_keeps_valid_front ecsNew entFive [compPtr] compBad [compPtr]
    (by decide) (by decide)

/-- The inner entity loop of `Update` is the fail-fast run of that
updater's invocations. -/
theorem updateEntitiesGo_eq_spec (u : Updater) (cr : EntityID → Option (List Component))
    (es : List Entity) (h : Heap) :
    updateEntitiesGo u cr es h = updateSpecRun cr (es.map (fun e => (u, e))) h := by
  induction es generalizing h with
  | nil => rfl
  | cons e rest ih =>
    simp only [updateEntitiesGo, List.map_cons, updateSpecRun]
    rcases u.update e.id ((cr e.id).getD []) cr h with ⟨h2, _ | err⟩ <;> simp [ih]

/-- A fail-fast run over an appended invocation list is the run of the
first part, continued by the run of the second part only on success. -/
theorem updateSpecRun_append (cr : EntityID → Option (List Component))
    (l1 l2 : List (Updater × Entity)) (h : Heap) :
    updateSpecRun cr (l1 ++ l2) h = specSeq (updateSpecRun cr l1 h) (updateSpecRun cr l2) := by
  induction l1 generalizing h with
  | nil =>
    simp only [List.nil_append, updateSpecRun, specSeq]
  | cons p rest ih =>
    rcases p with ⟨u, e⟩
    simp only [List.cons_append, updateSpecRun]
    rcases u.update e.id ((cr e.id).getD []) cr h with ⟨h2, _ | err⟩
    · simp only [List.append_eq, ih]
      rcases updateSpecRun cr rest h2 with ⟨tra, h3, _ | erra⟩
      · simp only [specSeq]
        rcases updateSpecRun cr l2 h3 with ⟨trb, h4, rb⟩
        simp
      · simp [specSeq]
    · simp [specSeq]

/-- C3: `Update` is exactly the fail-fast sequential run of the flat
invocation list — every registered updater in registration order, over
its associated entities in association order.  The right-hand definition
halts at the first invocation returning an error, returns that error
verbatim, and its resulting heap reflects only the invocations up to and
including the failing one (so state only later invocations would have
modified is untouched); when no invocation errs it performs them all and
returns no error. -/
theorem c3_update_fail_fast (ecs : ECS) (h : Heap) :
    Update ecs h = updateSpecRun ecs.componentsRegistry (updateInvocations ecs) h := by
  suffices haux : ∀ (us : List Updater) (h0 : Heap),
      updateUpdatersGo ecs us h0 =
        updateSpecRun ecs.componentsRegistry
          (us.flatMap (fun u => (FilterEntities ecs u.id).map (fun e => (u, e)))) h0 by
    exact haux ecs.updaters h
  intro us
  induction us with
  | nil => intro h0; rfl
  | cons u rest ih =>
    intro h0
    rw [List.flatMap_cons, updateSpecRun_append]
    simp only [updateUpdatersGo]
    rw [updateEntitiesGo_eq_spec]
    rcases updateSpecRun ecs.componentsRegistry
        ((FilterEntities ecs u.id).map (fun e => (u, e))) h0 with ⟨tr, h2, _ | err⟩
    · simp only [specSeq, ih h2]
    · simp [specSeq]

/-- C5: `Draw` emits the buckets in ascending z-index order — the key
list it sorts is sorted ascending, and replacing the recorded key list by
any permutation of it (i.e. however the buckets were created) leaves the
whole draw trace unchanged — and, by the last conjunct, within each
bucket it runs the drawers in registration order, each over its
associated entities in association order, each invocation receiving only
that entity's own component list (`drawBucket`). -/
theorem c5_draw_order (ecs : ECS) (keys2 : List Int)
    (hperm : ecs.drawerKeys.Perm keys2) :
    Draw { ecs with drawerKeys := keys2 } = Draw ecs ∧
    List.Sorted (fun a b => a ≤ b) (List.insertionSort (fun a b => a ≤ b) ecs.drawerKeys) ∧
    Draw ecs = (List.insertionSort (fun a b => a ≤ b) ecs.drawerKeys).flatMap (drawBucket ecs) := by
  refine ⟨?_, List.sorted_insertionSort _ _, rfl⟩
  have hsorted : List.insertionSort (fun a b => a ≤ b) keys2 =
      List.insertionSort (fun a b => a ≤ b) ecs.drawerKeys := by
    refine List.eq_of_perm_of_sorted ?_ (List.sorted_insertionSort _ _)
      (List.sorted_insertionSort _ _)
    exact (List.perm_insertionSort _ _).trans (hperm.symm.trans
      (List.perm_insertionSort _ _).symm)
  show (List.insertionSort (fun a b => a ≤ b) keys2).flatMap
      (drawBucket { ecs with drawerKeys := keys2 }) = Draw ecs
  rw [hsorted]
  rfl

/-- C5 witness: in `ecsZ` the buckets were created in the order 10, 5;
recording the keys in the order 5, 10 instead yields the same draw trace. -/
theorem c5_witness :
    List.Perm ecsZ.drawerKeys [5, 10] ∧
    Draw { ecsZ with drawerKeys := [5, 10] } = Draw ecsZ :=
  ⟨by decide, (c5_draw_order ecsZ [5, 10] (by decide)).1⟩

/-- Incrementing inside the signed 64-bit range does not wrap. -/
theorem wrap64_id (x : Int) (h0 : 0 ≤ x) (h1 : x < 2 ^ 63) : wrap64 x = x := by
  have e63 : (2 : Int) ^ 63 = 9223372036854775808 := by norm_num
  have e64 : (2 : Int) ^ 64 = 18446744073709551616 := by norm_num
  have hmod : (x + 2 ^ 63) % 2 ^ 64 = x + 2 ^ 63 :=
    Int.emod_eq_of_lt (by omega) (by omega)
  rw [wrap64, hmod]
  omega

/-- Splitting consecutive values above `a` into the first one and the
consecutive values above `a + 1`. -/
theorem consecutive_shift (a : Int) (n : Nat) :
    (a + 1) :: (List.range n).map (fun k : Nat => (a + 1) + (k : Int) + 1) =
      (List.range (n + 1)).map (fun k : Nat => a + (k : Int) + 1) := by
  rw [List.range_succ_eq_map, List.map_cons, List.map_map]
  congr 1
  · push_cast; ring
  · congr 1
    funext k
    simp only [Function.comp]
    push_cast
    ring

/-- The values a call sequence draws from each allocator, starting from a
wrap-free state: consecutive integers right above that namespace's
counter, independent of the calls to the other namespace. -/
theorem runAssigns_values (calls : List NS) (s : IdCounters)
    (he0 : 0 ≤ s.entityId) (heB : s.entityId + entCount calls < 2 ^ 63)
    (hs0 : 0 ≤ s.systemId) (hsB : s.systemId + sysCount calls < 2 ^ 63) :
    entValues (runAssigns calls s).1 =
      (List.range (entCount calls)).map (fun k : Nat => s.entityId + (k : Int) + 1) ∧
    sysValues (runAssigns calls s).1 =
      (List.range (sysCount calls)).map (fun k : Nat => s.systemId + (k : Int) + 1) := by
  induction calls generalizing s with
  | nil => simp [runAssigns, entValues, sysValues, entCount, sysCount]
  | cons n rest ih =>
    cases n with
    | ent =>
      have h1 : s.entityId + 1 < 2 ^ 63 := by
        simp only [entCount] at heB; push_cast at heB; omega
      have hwrap : wrap64 (s.entityId + 1) = s.entityId + 1 := wrap64_id _ (by omega) h1
      obtain ⟨ihe, ihs⟩ := ih { s with entityId := s.entityId + 1 }
        (by simp; omega)
        (by simp only [entCount] at heB; simp; push_cast at heB ⊢; omega)
        (by simpa using hs0)
        (by simp only [sysCount] at hsB; simpa using hsB)
      refine ⟨?_, ?_⟩
      · simp only [runAssigns, entityAssignID, hwrap, entValues, List.filterMap_cons,
          entCount] at ihe ⊢
        rw [ihe]
        simpa using consecutive_shift s.entityId (entCount rest)
      · simp only [runAssigns, entityAssignID, hwrap, sysValues, List.filterMap_cons,
          sysCount] at ihs ⊢
        simpa using ihs
    | sys =>
      have h1 : s.systemId + 1 < 2 ^ 63 := by
        simp only [sysCount] at hsB; push_cast at hsB; omega
      have hwrap : wrap64 (s.systemId + 1) = s.systemId + 1 := wrap64_id _ (by omega) h1
      obtain ⟨ihe, ihs⟩ := ih { s with systemId := s.systemId + 1 }
        (by simpa using he0)
        (by simp only [entCount] at heB; simpa using heB)
        (by simp; omega)
        (by simp only [sysCount] at hsB; simp; push_cast at hsB ⊢; omega)
      refine ⟨?_, ?_⟩
      · simp only [runAssigns, systemAssignID, hwrap, entValues, List.filterMap_cons,
          entCount] at ihe ⊢
        simpa using ihe
      · simp only [runAssigns, systemAssignID, hwrap, sysValues, List.filterMap_cons,
          sysCount] at ihs ⊢
        rw [ihs]
        simpa using consecutive_shift s.systemId (sysCount rest)

/-- C9: as long as each namespace issues fewer than `2 ^ 63` identifiers
(no 64-bit wraparound), every interleaved sequence of `AssignID` calls
from the initial counters yields, per namespace independently, values
each strictly greater than all previously issued ones in that namespace
(hence pairwise distinct), all strictly positive — so the first issued
value exceeds the zero "unset" value. -/
theorem c9_assignID_monotonic (calls : List NS)
    (hent : entCount calls < 2 ^ 63) (hsys : sysCount calls < 2 ^ 63) :
    List.Pairwise (· < ·) (entValues (runAssigns calls initialCounters).1) ∧
    List.Pairwise (· < ·) (sysValues (runAssigns calls initialCounters).1) ∧
    (∀ v ∈ entValues (runAssigns calls initialCounters).1, 0 < v) ∧
    (∀ v ∈ sysValues (runAssigns calls initialCounters).1, 0 < v) := by
  obtain ⟨he, hs⟩ := runAssigns_values calls initialCounters
    (by simp [initialCounters])
    (by simp only [initialCounters]; push_cast; omega)
    (by simp [initialCounters])
    (by simp only [initialCounters]; push_cast; omega)
  rw [he, hs]
  simp only [initialCounters, zero_add]
  refine ⟨?_, ?_, ?_, ?_⟩
  · rw [List.pairwise_map]
    exact (List.pairwise_lt_range _).imp (fun hab => by omega)
  · rw [List.pairwise_map]
    exact (List.pairwise_lt_range _).imp (fun hab => by omega)
  · intro v hv
    simp only [List.mem_map, List.mem_range] at hv
    obtain ⟨k, hk1, hk2⟩ := hv
    omega
  · intro v hv
    simp only [List.mem_map, List.mem_range] at hv
    obtain ⟨k, hk1, hk2⟩ := hv
    omega

/-- C9 witness: an interleaved call sequence well below the wraparound
bound satisfies the monotonicity property in each namespace. -/
theorem c9_witness :
    entCount [NS.ent, NS.sys, NS.ent] < 2 ^ 63 ∧
    sysCount [NS.ent, NS.sys, NS.ent] < 2 ^ 63 ∧
    List.Pairwise (· < ·)
      (entValues (runAssigns [NS.ent, NS.sys, NS.ent] initialCounters).1) :=
  ⟨by decide, by decide,
    (c9_assignID_monotonic [NS.ent, NS.sys, NS.ent] (by decide) (by decide)).1⟩

end EbitenEcs
